import Mathlib

/-!
Shallow embedding of the jasonkneen/ai-agent Go program.

It covers, translated from the source:
* the Go string primitives the program uses (`strings.Contains`,
  `strings.ToLower`, `strings.Split`/`Join` on the newline separator,
  `strings.HasSuffix`, `strings.Index`/`LastIndex`, `strings.ReplaceAll`,
  `strings.TrimSpace`), modelled at the character level — every
  separator, tool name and marker the program uses is ASCII, where Go's
  byte indices and character indices coincide;
* `FileEditTool.Execute` (tools package) over a one-path filesystem model;
* the orchestration in the agent package: `shouldUseTool`,
  `detectToolName`, `extractToolInput`, `executeTool` and `Process`;
* the llm package: the mock branch of `Client.Query` and the construction
  of the API request (system prompt extraction and message conversion);
* the JSON persistence of the conversation context
  (`SaveContext`/`loadContext`), modelled at the JSON-value level: the
  bytes written by `json.MarshalIndent` are read back unchanged and parse
  to the same JSON value, so the file layer is the identity on values.
-/

namespace AIAgent

/-! ### Go string primitives, character-level -/

/-- Go `strings.HasPrefix` on character lists. -/
def isPrefixL : List Char → List Char → Bool
  | [], _ => true
  | _ :: _, [] => false
  | a :: as, b :: bs => a == b && isPrefixL as bs

/-- Go `strings.Contains s pat` on character lists: `pat` occurs inside `s`. -/
def isInfixL (pat : List Char) : List Char → Bool
  | [] => isPrefixL pat []
  | c :: rest => isPrefixL pat (c :: rest) || isInfixL pat rest

/-- Go `strings.Contains s sub`. -/
def goContains (s sub : String) : Bool :=
  isInfixL sub.data s.data

/-- Go `strings.HasSuffix s suffix`. -/
def goHasSuffix (s suffix : String) : Bool :=
  isPrefixL suffix.data.reverse s.data.reverse

/-- Go `strings.ToLower` (the program only lowercases ASCII data). -/
def lowerStr (s : String) : String :=
  ⟨s.data.map Char.toLower⟩

/-- Go `strings.Split s "\n"` on character lists: split on every newline. -/
def splitNlL : List Char → List (List Char)
  | [] => [[]]
  | c :: cs =>
    if c = '\n' then [] :: splitNlL cs
    else
      match splitNlL cs with
      | [] => [[c]]
      | h :: t => (c :: h) :: t

/-- Go `strings.Split s "\n")`. -/
def goSplitNl (s : String) : List String :=
  (splitNlL s.data).map fun l => ⟨l⟩

/-- Go `strings.Join parts "\n"`. -/
def joinNl : List String → String
  | [] => ""
  | [s] => s
  | s :: rest => s ++ "\n" ++ joinNl rest

/-- Number of bytes of the UTF-8 encoding of one character. -/
def charUtf8Size (c : Char) : Nat :=
  if c.toNat < 128 then 1
  else if c.toNat < 2048 then 2
  else if c.toNat < 65536 then 3
  else 4

/-- Byte length of the UTF-8 encoding of a character list. -/
def utf8Len : List Char → Nat
  | [] => 0
  | c :: cs => charUtf8Size c + utf8Len cs

/-- Go `len(s)` on a string: its byte length. -/
def goLen (s : String) : Nat :=
  utf8Len s.data

/-- Index of the first occurrence of a character, Go `strings.Index` with a
one-character pattern (`none` models Go's `-1`). -/
def firstIdxOf (c : Char) : List Char → Option Nat
  | [] => none
  | a :: as => if a = c then some 0 else (firstIdxOf c as).map (· + 1)

/-- Index of the last occurrence of a character, Go `strings.LastIndex` with
a one-character pattern (`none` models Go's `-1`). -/
def lastIdxOf (c : Char) (s : List Char) : Option Nat :=
  (firstIdxOf c s.reverse).map (fun i => s.length - 1 - i)

/-- Index of the first occurrence of `pat`, Go `strings.Index`
(`none` models Go's `-1`; the empty pattern matches at index 0). -/
def firstIdxOfSub (pat : List Char) : List Char → Option Nat
  | [] => if isPrefixL pat [] then some 0 else none
  | c :: rest =>
    if isPrefixL pat (c :: rest) then some 0
    else (firstIdxOfSub pat rest).map (· + 1)

/-- One fuel-indexed step of Go `strings.ReplaceAll s pat repl`; the fuel is
an upper bound on the number of characters still to scan.  The program only
replaces non-empty patterns, which this models exactly. -/
def replaceAllAux (pat repl : List Char) : Nat → List Char → List Char
  | 0, s => s
  | _ + 1, [] => []
  | fuel + 1, c :: rest =>
    if pat ≠ [] && isPrefixL pat (c :: rest) then
      repl ++ replaceAllAux pat repl fuel (List.drop pat.length (c :: rest))
    else
      c :: replaceAllAux pat repl fuel rest

/-- Go `strings.ReplaceAll s pat repl` for a non-empty pattern. -/
def replaceAllL (pat repl s : List Char) : List Char :=
  replaceAllAux pat repl s.length s

/-- Go `strings.TrimSpace` on character lists. -/
def trimL (s : List Char) : List Char :=
  ((s.dropWhile Char.isWhitespace).reverse.dropWhile Char.isWhitespace).reverse

/-- The single-quote character, used by `fmt` format strings in the source. -/
def sq : String := ⟨[Char.ofNat 39]⟩

/-- An opening curly brace. -/
def lbrace : Char := Char.ofNat 123

/-- A closing curly brace. -/
def rbrace : Char := Char.ofNat 125

/-! ### FileEditTool (tools package) -/

/-- The parsed JSON payload of a file-edit call (`FileEditRequest`).
`start_line`/`end_line` are Go `int`s whose zero value is the unset
sentinel. -/
structure FileEditRequest where
  filePath : String
  operation : String
  content : String
  startLine : Int
  endLine : Int
deriving DecidableEq

/-- What `os.Stat` can observe at the request's path: nothing, a directory,
or a regular file with its current content. -/
inductive FsEntry where
  | missing
  | dir
  | file (content : String)
deriving DecidableEq

/-- `FileEditTool.Execute` after JSON parsing, as a function of the request
and the filesystem entry at `file_path`.  The result is the value Go
returns (`Execute`'s `(string, error)` pair as an `Except`) together with
the entry at the path afterwards; every error return in the source happens
before `ioutil.WriteFile`, so on error the entry is unchanged. -/
def fileEditExecute (req : FileEditRequest) (entry : FsEntry) :
    Except String String × FsEntry :=
  if req.filePath = "" then (.error "file_path is required", entry)
  else if req.operation = "" then (.error "operation is required", entry)
  else
    match entry with
    | .missing =>
      if req.content ≠ "" then
        (.ok ("Created new file " ++ req.filePath ++ " with "
            ++ toString (goLen req.content) ++ " bytes"),
         .file req.content)
      else
        (.error ("file not found: " ++ req.filePath), .missing)
    | .dir => (.error (req.filePath ++ " is a directory, not a file"), .dir)
    | .file current =>
      let res : Except String String :=
        if req.operation = "replace" then
          if req.startLine = 0 ∧ req.endLine = 0 then
            .ok req.content
          else
            let lines := goSplitNl current
            let n : Int := lines.length
            if req.startLine < 1 ∨ req.startLine > n then
              .error ("start_line out of range: valid range is 1-"
                  ++ toString lines.length)
            else
              let endL : Int :=
                if req.endLine < req.startLine ∨ req.endLine > n then n
                else req.endLine
              .ok (joinNl (lines.take (req.startLine - 1).toNat
                  ++ goSplitNl req.content
                  ++ lines.drop endL.toNat))
        else if req.operation = "append" then
          .ok (if goHasSuffix current "\n" then current ++ req.content
               else current ++ "\n" ++ req.content)
        else
          .error ("unsupported operation: " ++ req.operation ++ ". Use "
              ++ sq ++ "replace" ++ sq ++ " or " ++ sq ++ "append" ++ sq)
      match res with
      | .error e => (.error e, .file current)
      | .ok newContent =>
        (.ok ("Successfully edited " ++ req.filePath ++ " ("
            ++ toString (goLen newContent) ++ " bytes written)"),
         .file newContent)

/-- The success return of an edit that wrote `newContent` to `path`
(`"Successfully edited %s (%d bytes written)"` with the written entry). -/
def editedReply (path newContent : String) : Except String String × FsEntry :=
  (.ok ("Successfully edited " ++ path ++ " ("
      ++ toString (goLen newContent) ++ " bytes written)"),
   .file newContent)

/-- The spliced content of a line-range replace: the first `startLine - 1`
lines of `current`, then the lines of `reqContent`, then all but the first
`dropCount` lines of `current`, rejoined with newlines (the `newLines`
expression of the source). -/
def spliceContent (current reqContent : String) (startLine : Int) (dropCount : Nat) : String :=
  joinNl ((goSplitNl current).take (startLine - 1).toNat
    ++ goSplitNl reqContent
    ++ (goSplitNl current).drop dropCount)

/-! ### Agent orchestration (agent package) -/

/-- `agent.Message` / `llm.Message` (identical `{role, content}` structs;
`convertToLLMMessages` is a field-for-field copy). -/
structure Message where
  role : String
  content : String
deriving DecidableEq

/-- The `Execute` method of a registered tool. -/
def ToolFn : Type := String → Except String String

/-- Lookup in the tool registry (`a.toolRegistry[toolName]`). -/
def lookupTool : List (String × ToolFn) → String → Option ToolFn
  | [], _ => none
  | (n, f) :: rest, name => if n = name then some f else lookupTool rest name

/-- `Agent.shouldUseTool`: some registered tool name occurs in the lowercased
reply, or the lowercased reply contains both "use the" and "tool". -/
def shouldUseTool (names : List String) (input : String) : Bool :=
  names.any (fun n => goContains (lowerStr input) (lowerStr n)) ||
  (goContains (lowerStr input) "use the" && goContains (lowerStr input) "tool")

/-- `Agent.detectToolName`: the first registered name occurring in the
lowercased reply, defaulting to "web_search". -/
def detectToolName (names : List String) (input : String) : String :=
  match names.find? (fun n => goContains (lowerStr input) (lowerStr n)) with
  | some n => n
  | none => "web_search"

/-- The synthesized payload `extractToolInput` returns when no JSON object
span is found in a file_edit reply. -/
def extractionFailurePayload : String :=
  ⟨lbrace :: ("\"error\": \"Could not extract valid JSON from input. Please provide a valid JSON object with file_path, operation, and content fields.\"").data ++ [rbrace]⟩

/-- `Agent.extractToolInput`: for file_edit, the span from the first opening
brace to the last closing brace; for other tools, the text after the first
(case-insensitive) occurrence of the tool name with filler substrings
removed and whitespace trimmed. -/
def extractToolInput (toolName input : String) : String :=
  if toolName = "file_edit" then
    match firstIdxOf lbrace input.data, lastIdxOf rbrace input.data with
    | some i, some j =>
      if i < j then ⟨(input.data.drop i).take (j + 1 - i)⟩
      else extractionFailurePayload
    | _, _ => extractionFailurePayload
  else
    match firstIdxOfSub (lowerStr toolName).data (lowerStr input).data with
    | none => input
    | some idx =>
      let afterToolName := input.data.drop (idx + toolName.data.length)
      let phrases : List String := ["tool", "to", "with", "for", "using", "use", "the", ":"]
      let cleaned := phrases.foldl (fun acc p => replaceAllL p.data [] acc) afterToolName
      ⟨trimL cleaned⟩

/-- `Agent.executeTool`: registry lookup, input extraction, tool call. -/
def executeTool (reg : List (String × ToolFn)) (toolName input : String) :
    Except String String :=
  match lookupTool reg toolName with
  | none => .error ("tool " ++ toolName ++ " not found")
  | some f => f (extractToolInput toolName input)

/-- `Agent.Process`, parameterized by the Gateway (`llmClient.Query`) and
the tool registry.  Returns Go's `(string, error)` result, the context
after the call (Go mutates `a.context` in place, so appends made before a
failure survive it), and the number of Gateway queries performed. -/
def agentProcess (query : List Message → Except String String)
    (reg : List (String × ToolFn)) (ctx : List Message) (input : String) :
    Except String String × List Message × Nat :=
  let names := reg.map Prod.fst
  let ctx1 := ctx ++ [⟨"user", input⟩]
  match query ctx1 with
  | .error e => (.error e, ctx1, 1)
  | .ok llmResponse =>
    if shouldUseTool names llmResponse then
      let toolName := detectToolName names llmResponse
      let ctx2 := ctx1 ++ [⟨"assistant", llmResponse⟩]
      match executeTool reg toolName llmResponse with
      | .error e => (.error ("tool execution error: " ++ e), ctx2, 1)
      | .ok toolResponse =>
        let ctx3 := ctx2 ++ [⟨"tool",
            "Tool " ++ sq ++ toolName ++ sq ++ " returned: " ++ toolResponse⟩]
        match query ctx3 with
        | .error e => (.error e, ctx3, 2)
        | .ok finalResponse =>
          (.ok finalResponse, ctx3 ++ [⟨"assistant", finalResponse⟩], 2)
    else
      (.ok llmResponse, ctx1 ++ [⟨"assistant", llmResponse⟩], 1)

/-- The names `NewAgent` registers (web search, file search, file read,
file edit tools, keyed by their `GetName()`). -/
def newAgentToolNames : List String :=
  ["web_search", "file_search", "file_read", "file_edit"]

/-! ### LLM client (llm package) -/

/-- `Client.Query` with an empty API key: the mock reply built from the last
message.  `none` models the index-out-of-range panic of
`messages[len(messages)-1]` on an empty slice. -/
def mockResponse (messages : List Message) : Option String :=
  match messages.getLast? with
  | some m => some ("Mock Claude response to: " ++ m.content)
  | none => none

/-- One entry of the `messages` array `Client.Query` transmits. -/
structure ApiMessage where
  role : String
  content : String
deriving DecidableEq

/-- How one transcript message contributes to the transmitted array:
system messages contribute nothing (they only set the system prompt),
user/assistant pass through, tool messages are re-roled as user with the
"[Tool Output]" marker, any other role is dropped. -/
def toApiMessage (m : Message) : Option ApiMessage :=
  if m.role = "system" then none
  else if m.role = "user" ∨ m.role = "assistant" then some ⟨m.role, m.content⟩
  else if m.role = "tool" then some ⟨"user", "[Tool Output] " ++ m.content⟩
  else none

/-- The `apiMessages` array built by `Client.Query`'s loop. -/
def apiMessagesOf (msgs : List Message) : List ApiMessage :=
  msgs.filterMap toApiMessage

/-- The `systemPrompt` variable after `Client.Query`'s loop: each system
message overwrites it, so the last one wins (initially empty). -/
def systemPromptOf (msgs : List Message) : String :=
  msgs.foldl (fun acc m => if m.role = "system" then m.content else acc) ""

/-- The `system` field of the request payload: present only when the final
`systemPrompt` is non-empty. -/
def payloadSystem (msgs : List Message) : Option String :=
  if systemPromptOf msgs = "" then none else some (systemPromptOf msgs)

/-! ### Conversation persistence (SaveContext / loadContext) -/

/-- JSON values, the common currency of `encoding/json`. -/
inductive Json where
  | str (s : String)
  | num (n : Int)
  | bool (b : Bool)
  | null
  | arr (xs : List Json)
  | obj (fields : List (String × Json))

/-- `json.Marshal` of one `Message` (struct tags `role`, `content`). -/
def encodeMessage (m : Message) : Json :=
  .obj [("role", .str m.role), ("content", .str m.content)]

/-- `Agent.SaveContext`: the JSON value `json.MarshalIndent(a.context, ...)`
serializes (indentation only affects whitespace, not the value). -/
def saveContextJson (ms : List Message) : Json :=
  .arr (ms.map encodeMessage)

/-- Field lookup in a decoded JSON object. -/
def lookupField : List (String × Json) → String → Option Json
  | [], _ => none
  | (k, v) :: rest, key => if k = key then some v else lookupField rest key

/-- `json.Unmarshal` of a string-typed struct field: a missing field keeps
the zero value, a present field must be a JSON string. -/
def decodeStrField (fields : List (String × Json)) (key : String) : Option String :=
  match lookupField fields key with
  | none => some ""
  | some (.str s) => some s
  | some _ => none

/-- `json.Unmarshal` of one `Message`: a JSON object with string fields
`role` and `content`. -/
def decodeMessage : Json → Option Message
  | .obj fields => do
    let r ← decodeStrField fields "role"
    let c ← decodeStrField fields "content"
    pure ⟨r, c⟩
  | _ => none

/-- Element-wise `json.Unmarshal` of the message array. -/
def decodeMessages : List Json → Option (List Message)
  | [] => some []
  | j :: rest => do
    let m ← decodeMessage j
    let ms ← decodeMessages rest
    pure (m :: ms)

/-- `Agent.loadContext`: `json.Unmarshal(data, &a.context)` on the JSON
value the persisted bytes parse to. -/
def loadContextJson : Json → Option (List Message)
  | .arr xs => decodeMessages xs
  | _ => none

/-- `Except.isOk` under a local name so concrete runs can be evaluated. -/
def isOkB : Except String String → Bool
  | .ok _ => true
  | .error _ => false

/-! ### Helper lemmas -/

/-- `isPrefixL` decides the list-prefix relation. -/
theorem isPrefixL_eq_true_iff : ∀ p s : List Char, isPrefixL p s = true ↔ p <+: s
  | [], s => by simp [isPrefixL]
  | a :: as, [] => by simp [isPrefixL]
  | a :: as, b :: bs => by
    simp [isPrefixL, List.cons_prefix_cons, isPrefixL_eq_true_iff as bs,
      Bool.and_eq_true, beq_iff_eq]

/-- `isInfixL` decides the list-infix relation, so `goContains` agrees with
Go substring containment. -/
theorem isInfixL_eq_true_iff : ∀ p s : List Char, isInfixL p s = true ↔ p <:+: s
  | p, [] => by simp [isInfixL, isPrefixL_eq_true_iff]
  | p, c :: rest => by
    simp [isInfixL, Bool.or_eq_true, isPrefixL_eq_true_iff,
      isInfixL_eq_true_iff p rest, List.infix_cons_iff]

/-- Registry lookup succeeds for every name that is the key of some entry. -/
theorem lookupTool_isSome_of_mem : ∀ (reg : List (String × ToolFn)) (name : String),
    name ∈ reg.map Prod.fst → (lookupTool reg name).isSome = true
  | [], _, h => by simp at h
  | (n, f) :: rest, name, h => by
    by_cases hn : n = name
    · simp [lookupTool, hn]
    · have hmem : name ∈ rest.map Prod.fst := by
        simp only [List.map_cons, List.mem_cons] at h
        exact h.resolve_left (fun he => hn he.symm)
      simp [lookupTool, hn, lookupTool_isSome_of_mem rest name hmem]

/-- The replace branch with a valid `start_line`: the written content is the
splice whose kept suffix starts at the clamped `end_line`. -/
theorem fileEditExecute_replace_eq (req : FileEditRequest) (current : String)
    (hfp : req.filePath ≠ "") (hop : req.operation = "replace")
    (h1 : 1 ≤ req.startLine) (h2 : req.startLine ≤ ((goSplitNl current).length : Int)) :
    fileEditExecute req (.file current) =
      editedReply req.filePath (spliceContent current req.content req.startLine
        (if req.endLine < req.startLine ∨ req.endLine > ((goSplitNl current).length : Int)
         then (goSplitNl current).length else req.endLine.toNat)) := by
  have hsent : ¬(req.startLine = 0 ∧ req.endLine = 0) := by omega
  have hrange : ¬(req.startLine < 1 ∨ req.startLine > ((goSplitNl current).length : Int)) := by
    omega
  simp only [fileEditExecute, editedReply, spliceContent, hop, hfp, hsent, hrange]
  simp [apply_ite Int.toNat, Int.toNat_natCast]

/-- The replace branch with an out-of-range `start_line`: a range error
naming the valid bound, with the file left as it was. -/
theorem fileEditExecute_replace_range_error (req : FileEditRequest) (current : String)
    (hfp : req.filePath ≠ "") (hop : req.operation = "replace")
    (hsent : ¬(req.startLine = 0 ∧ req.endLine = 0))
    (hr : req.startLine < 1 ∨ req.startLine > ((goSplitNl current).length : Int)) :
    fileEditExecute req (.file current) =
      (.error ("start_line out of range: valid range is 1-"
          ++ toString (goSplitNl current).length),
       .file current) := by
  simp only [fileEditExecute, hop, hfp, hsent, hr]
  simp

/-- System messages contribute nothing to the transmitted messages array:
dropping them first changes nothing. -/
theorem apiMessagesOf_drop_system : ∀ msgs : List Message,
    apiMessagesOf msgs = apiMessagesOf (msgs.filter fun m => !(m.role == "system"))
  | [] => rfl
  | m :: rest => by
    have ih := apiMessagesOf_drop_system rest
    simp only [apiMessagesOf] at ih ⊢
    by_cases hs : m.role = "system"
    · have hnone : toApiMessage m = none := by simp [toApiMessage, hs]
      simp [List.filterMap_cons, hnone, List.filter_cons, hs, ih]
    · simp only [List.filterMap_cons, List.filter_cons, hs]
      cases hma : toApiMessage m <;> simp [hma, ih, hs]

/-- The system-prompt fold keeps the content of the last system message,
falling back to its initial value when there is none. -/
theorem systemPromptOf_foldl : ∀ (msgs : List Message) (init : String),
    msgs.foldl (fun acc m => if m.role = "system" then m.content else acc) init =
      ((msgs.filter fun m => m.role == "system").map Message.content).getLastD init
  | [], _ => rfl
  | m :: rest, init => by
    by_cases hs : m.role = "system"
    · simp only [List.foldl_cons]
      rw [if_pos hs, systemPromptOf_foldl rest m.content,
        List.filter_cons_of_pos (by simp [hs]), List.map_cons, List.getLastD_cons]
    · simp only [List.foldl_cons]
      rw [if_neg hs, systemPromptOf_foldl rest init,
        List.filter_cons_of_neg (by simp [hs])]

/-- Decoding inverts encoding on a single message. -/
theorem decodeMessage_encodeMessage (m : Message) :
    decodeMessage (encodeMessage m) = some m := rfl

/-- Decoding inverts encoding element-wise on a message list. -/
theorem decodeMessages_map_encode : ∀ ms : List Message,
    decodeMessages (ms.map encodeMessage) = some ms
  | [] => rfl
  | m :: rest => by
    simp [decodeMessages, decodeMessage_encodeMessage, decodeMessages_map_encode rest]

/-! ### Claims -/

/-- C1 (amended): for a replace request on an existing regular file, if both
`start_line` and `end_line` are the zero sentinel the new content is the
request content verbatim; otherwise, with `start_line` within
`[1, lineCount]`, if `end_line` is at least `start_line` the new content is
the newline-join of lines `1..start_line-1`, the lines of the request
content, and lines `end_line+1..lineCount` (an `end_line` beyond
`lineCount` contributes no suffix lines); if `end_line` is below
`start_line` it is treated as `lineCount`, so the kept suffix is empty
rather than lines `end_line+1..lineCount`. -/
theorem replace_splice_spec (req : FileEditRequest) (current : String)
    (hfp : req.filePath ≠ "") (hop : req.operation = "replace") :
    (req.startLine = 0 ∧ req.endLine = 0 →
      fileEditExecute req (.file current) = editedReply req.filePath req.content) ∧
    (1 ≤ req.startLine → req.startLine ≤ ((goSplitNl current).length : Int) →
      (req.startLine ≤ req.endLine →
        fileEditExecute req (.file current) =
          editedReply req.filePath
            (spliceContent current req.content req.startLine req.endLine.toNat)) ∧
      (req.endLine < req.startLine →
        fileEditExecute req (.file current) =
          editedReply req.filePath
            (spliceContent current req.content req.startLine (goSplitNl current).length))) := by
  refine ⟨?_, ?_⟩
  · rintro ⟨hs, he⟩
    simp [fileEditExecute, hfp, hop, hs, he, editedReply]
  · intro h1 h2
    refine ⟨?_, ?_⟩
    · intro hle
      rw [fileEditExecute_replace_eq req current hfp hop h1 h2]
      by_cases hgt : req.endLine > ((goSplitNl current).length : Int)
      · rw [if_pos (Or.inr hgt)]
        have hd1 : (goSplitNl current).drop (goSplitNl current).length = [] :=
          List.drop_length _
        have hd2 : (goSplitNl current).drop req.endLine.toNat = [] := by
          apply List.drop_eq_nil_of_le
          omega
        simp [spliceContent, hd1, hd2]
      · rw [if_neg (by omega)]
    · intro hlt
      rw [fileEditExecute_replace_eq req current hfp hop h1 h2]
      rw [if_pos (Or.inl hlt)]

/-- C1 counterexample: on content `"A\nB\nC"` with `start_line = 2` and
`end_line = 1`, the code clamps `end_line` to the line count and writes
`"A\nX"`, while the claimed formula (keep lines `end_line+1..lineCount`)
would give `"A\nX\nB\nC"`. -/
theorem replace_claim_formula_counterexample :
    fileEditExecute ⟨"f.txt", "replace", "X", 2, 1⟩ (.file "A\nB\nC") =
      (.ok "Successfully edited f.txt (3 bytes written)", .file "A\nX") ∧
    joinNl ((goSplitNl "A\nB\nC").take 1 ++ goSplitNl "X" ++ (goSplitNl "A\nB\nC").drop 1)
      = "A\nX\nB\nC" ∧
    ("A\nX" : String) ≠ "A\nX\nB\nC" :=
  ⟨rfl, rfl, by decide⟩

/-- C1 witness: replace with `start_line = 2`, `end_line = 2` on
`"A\nB\nC"` with content `"X\nY"` yields `"A\nX\nY\nC"`. -/
theorem replace_splice_spec_witness :
    fileEditExecute ⟨"f.txt", "replace", "X\nY", 2, 2⟩ (.file "A\nB\nC") =
      (.ok "Successfully edited f.txt (7 bytes written)", .file "A\nX\nY\nC") :=
  ((replace_splice_spec ⟨"f.txt", "replace", "X\nY", 2, 2⟩ "A\nB\nC"
      (by decide) rfl).2 (by decide) (by decide)).1 (by decide)

/-- C2: for a replace request with a non-sentinel line range on an existing
regular file, an out-of-range `start_line` fails with a range error naming
the valid range `1-lineCount` and leaves the content unchanged; otherwise
an `end_line` below `start_line` or above `lineCount` is silently treated
as `lineCount` and the call succeeds. -/
theorem replace_validation_spec (req : FileEditRequest) (current : String)
    (hfp : req.filePath ≠ "") (hop : req.operation = "replace")
    (hns : ¬(req.startLine = 0 ∧ req.endLine = 0)) :
    ((req.startLine < 1 ∨ req.startLine > ((goSplitNl current).length : Int)) →
      fileEditExecute req (.file current) =
        (.error ("start_line out of range: valid range is 1-"
            ++ toString (goSplitNl current).length),
         .file current)) ∧
    (1 ≤ req.startLine → req.startLine ≤ ((goSplitNl current).length : Int) →
     (req.endLine < req.startLine ∨ req.endLine > ((goSplitNl current).length : Int)) →
      fileEditExecute req (.file current) =
        fileEditExecute { req with endLine := ((goSplitNl current).length : Int) }
          (.file current) ∧
      isOkB (fileEditExecute req (.file current)).1 = true) := by
  refine ⟨?_, ?_⟩
  · intro hr
    exact fileEditExecute_replace_range_error req current hfp hop hns hr
  · intro h1 h2 hc
    have e1 := fileEditExecute_replace_eq req current hfp hop h1 h2
    have e2 := fileEditExecute_replace_eq { req with endLine := ((goSplitNl current).length : Int) }
      current hfp hop h1 h2
    dsimp only at e2
    rw [if_pos hc] at e1
    rw [if_neg (by omega)] at e2
    simp only [Int.toNat_natCast] at e2
    refine ⟨e1.trans e2.symm, ?_⟩
    rw [e1]
    rfl

/-- C2 witness: `start_line = 5` on the 3-line file `"A\nB\nC"` fails with
the range error naming `1-3` and leaves the file unchanged, and
`end_line = 99` behaves exactly like `end_line = 3` and succeeds. -/
theorem replace_validation_spec_witness :
    (fileEditExecute ⟨"f.txt", "replace", "X", 5, 0⟩ (.file "A\nB\nC") =
      (.error "start_line out of range: valid range is 1-3", .file "A\nB\nC")) ∧
    (fileEditExecute ⟨"f.txt", "replace", "X", 2, 99⟩ (.file "A\nB\nC") =
      fileEditExecute ⟨"f.txt", "replace", "X", 2, 3⟩ (.file "A\nB\nC") ∧
     isOkB (fileEditExecute ⟨"f.txt", "replace", "X", 2, 99⟩ (.file "A\nB\nC")).1 = true) :=
  ⟨(replace_validation_spec ⟨"f.txt", "replace", "X", 5, 0⟩ "A\nB\nC"
      (by decide) rfl (by decide)).1 (by decide),
   (replace_validation_spec ⟨"f.txt", "replace", "X", 2, 99⟩ "A\nB\nC"
      (by decide) rfl (by decide)).2 (by decide) (by decide) (by decide)⟩

/-- C3: a file-edit request with non-empty `file_path` and non-empty
`operation` on a nonexistent path creates the file with exactly the request
content and reports the byte count whenever the content is non-empty —
whatever the operation value is — and fails with a file-not-found error,
creating nothing, when the content is empty. -/
theorem create_on_missing_spec (req : FileEditRequest)
    (hfp : req.filePath ≠ "") (hop : req.operation ≠ "") :
    (req.content ≠ "" →
      fileEditExecute req .missing =
        (.ok ("Created new file " ++ req.filePath ++ " with "
            ++ toString (goLen req.content) ++ " bytes"),
         .file req.content)) ∧
    (req.content = "" →
      fileEditExecute req .missing =
        (.error ("file not found: " ++ req.filePath), .missing)) := by
  constructor
  · intro hc
    simp [fileEditExecute, hfp, hop, hc]
  · intro hc
    simp [fileEditExecute, hfp, hop, hc]

/-- C3 witness: the unsupported operation value "frobnicate" still creates
the missing file with content "hello" and reports 5 bytes, while empty
content fails with file-not-found. -/
theorem create_on_missing_spec_witness :
    (fileEditExecute ⟨"new.txt", "frobnicate", "hello", 0, 0⟩ .missing =
      (.ok "Created new file new.txt with 5 bytes", .file "hello")) ∧
    (fileEditExecute ⟨"new.txt", "replace", "", 0, 0⟩ .missing =
      (.error "file not found: new.txt", .missing)) :=
  ⟨(create_on_missing_spec ⟨"new.txt", "frobnicate", "hello", 0, 0⟩
      (by decide) (by decide)).1 (by decide),
   (create_on_missing_spec ⟨"new.txt", "replace", "", 0, 0⟩
      (by decide) (by decide)).2 rfl⟩

/-- C4: for a non-empty input with all Gateway queries and any tool
execution succeeding, a turn whose first reply does not trigger tool-need
detection performs one query and appends user then assistant; a turn whose
first reply triggers detection and resolves to a registered tool performs
two queries and appends user, assistant (tool request), tool (tool result),
assistant (the returned final reply). -/
theorem process_turn_shape
    (query : List Message → Except String String)
    (reg : List (String × ToolFn)) (ctx : List Message) (input r1 : String)
    (_hin : input ≠ "")
    (h1 : query (ctx ++ [⟨"user", input⟩]) = .ok r1) :
    (shouldUseTool (reg.map Prod.fst) r1 = false →
      agentProcess query reg ctx input =
        (.ok r1, ctx ++ [⟨"user", input⟩, ⟨"assistant", r1⟩], 1)) ∧
    (∀ f tr r2,
      shouldUseTool (reg.map Prod.fst) r1 = true →
      lookupTool reg (detectToolName (reg.map Prod.fst) r1) = some f →
      f (extractToolInput (detectToolName (reg.map Prod.fst) r1) r1) = .ok tr →
      query (ctx ++ [⟨"user", input⟩, ⟨"assistant", r1⟩,
          ⟨"tool", "Tool " ++ sq ++ detectToolName (reg.map Prod.fst) r1 ++ sq
              ++ " returned: " ++ tr⟩]) = .ok r2 →
      agentProcess query reg ctx input =
        (.ok r2,
         ctx ++ [⟨"user", input⟩, ⟨"assistant", r1⟩,
           ⟨"tool", "Tool " ++ sq ++ detectToolName (reg.map Prod.fst) r1 ++ sq
               ++ " returned: " ++ tr⟩,
           ⟨"assistant", r2⟩], 2)) := by
  constructor
  · intro hno
    simp [agentProcess, h1, hno]
  · intro f tr r2 hyes hlook hf hq2
    have hassoc : ((ctx ++ [(⟨"user", input⟩ : Message)]) ++ [(⟨"assistant", r1⟩ : Message)])
        ++ [(⟨"tool", "Tool " ++ sq ++ detectToolName (reg.map Prod.fst) r1 ++ sq
            ++ " returned: " ++ tr⟩ : Message)] =
        ctx ++ [⟨"user", input⟩, ⟨"assistant", r1⟩,
          ⟨"tool", "Tool " ++ sq ++ detectToolName (reg.map Prod.fst) r1 ++ sq
              ++ " returned: " ++ tr⟩] := by
      simp
    simp only [agentProcess, h1, hyes, if_true, executeTool, hlook, hf, hassoc, hq2]
    simp

/-- C4 witness: a constant Gateway whose reply asks for the web_search tool
makes one concrete turn perform two queries and append the four messages in
order. -/
theorem process_turn_shape_witness :
    agentProcess (fun _ => .ok "use the web_search tool")
        [("web_search", fun _ => Except.ok "ok")] [] "hi" =
      (.ok "use the web_search tool",
       [⟨"user", "hi"⟩, ⟨"assistant", "use the web_search tool"⟩,
        ⟨"tool", "Tool " ++ sq ++ "web_search" ++ sq ++ " returned: ok"⟩,
        ⟨"assistant", "use the web_search tool"⟩], 2) :=
  (process_turn_shape (fun _ => .ok "use the web_search tool")
      [("web_search", fun _ => Except.ok "ok")] [] "hi" "use the web_search tool"
      (by decide) rfl).2
    (fun _ => Except.ok "ok") "ok" "use the web_search tool" rfl rfl rfl rfl

/-- C5: appending to an existing regular file concatenates the request
content directly when the current content ends with a newline, and inserts
exactly one newline in between otherwise. -/
theorem append_spec (req : FileEditRequest) (current : String)
    (hfp : req.filePath ≠ "") (hop : req.operation = "append") :
    fileEditExecute req (.file current) =
      editedReply req.filePath
        (if goHasSuffix current "\n" then current ++ req.content
         else current ++ "\n" ++ req.content) := by
  simp [fileEditExecute, hfp, hop, editedReply]

/-- C5 witness: append of "B" onto "A" yields `"A\nB"`, and append of "B"
onto `"A\n"` also yields `"A\nB"`. -/
theorem append_spec_witness :
    (fileEditExecute ⟨"f.txt", "append", "B", 0, 0⟩ (.file "A")).2 = .file "A\nB" ∧
    (fileEditExecute ⟨"f.txt", "append", "B", 0, 0⟩ (.file "A\n")).2 = .file "A\nB" :=
  ⟨congrArg Prod.snd (append_spec ⟨"f.txt", "append", "B", 0, 0⟩ "A" (by decide) rfl),
   congrArg Prod.snd (append_spec ⟨"f.txt", "append", "B", 0, 0⟩ "A\n" (by decide) rfl)⟩

/-- C6: saving any transcript and loading it back restores the identical
ordered message sequence, with every role and content preserved exactly. -/
theorem save_load_roundtrip (ms : List Message) :
    loadContextJson (saveContextJson ms) = some ms :=
  decodeMessages_map_encode ms

/-- C7: `shouldUseTool` returns true exactly when the lowercased reply
contains the lowercased name of some registered tool, or contains both
"use the" and "tool". -/
theorem shouldUseTool_iff (names : List String) (input : String) :
    shouldUseTool names input = true ↔
      ((∃ n ∈ names, (lowerStr n).data <:+: (lowerStr input).data) ∨
       ("use the".data <:+: (lowerStr input).data ∧
        "tool".data <:+: (lowerStr input).data)) := by
  simp [shouldUseTool, goContains, List.any_eq_true, isInfixL_eq_true_iff,
    Bool.or_eq_true, Bool.and_eq_true]

/-- C8 counterexample: in placeholder mode the mock branch indexes the last
message of the transcript, so on the empty transcript it fails (index out
of range) instead of returning a reply. -/
theorem mock_query_empty_counterexample : mockResponse [] = none := rfl

/-- C8 (amended): for every non-empty transcript, placeholder mode returns
the deterministic, clearly-labeled mock reply built from the last message
content, and never fails. -/
theorem mock_query_nonempty_spec (ms : List Message) (m : Message) :
    mockResponse (ms ++ [m]) = some ("Mock Claude response to: " ++ m.content) := by
  simp [mockResponse, List.getLast?_concat]

/-- C9: whenever "web_search" is registered — as `NewAgent` always does —
`detectToolName` returns a key of the registry: either a registered name
occurring in the lowercased reply or the "web_search" fallback, so the
registry lookup in `executeTool` always succeeds and its not-found branch
is unreachable from `Process`. -/
theorem detectToolName_registered (reg : List (String × ToolFn)) (input : String)
    (hws : "web_search" ∈ reg.map Prod.fst) :
    "web_search" ∈ newAgentToolNames ∧
    detectToolName (reg.map Prod.fst) input ∈ reg.map Prod.fst ∧
    (lookupTool reg (detectToolName (reg.map Prod.fst) input)).isSome = true ∧
    (goContains (lowerStr input) (lowerStr (detectToolName (reg.map Prod.fst) input)) = true ∨
      detectToolName (reg.map Prod.fst) input = "web_search") := by
  have hmem : detectToolName (reg.map Prod.fst) input ∈ reg.map Prod.fst := by
    unfold detectToolName
    cases hfind : (reg.map Prod.fst).find? (fun n => goContains (lowerStr input) (lowerStr n)) with
    | none => exact hws
    | some n => exact List.mem_of_find?_eq_some hfind
  refine ⟨by decide, hmem, lookupTool_isSome_of_mem reg _ hmem, ?_⟩
  rcases hfind : (reg.map Prod.fst).find? (fun n => goContains (lowerStr input) (lowerStr n))
    with _ | n
  · have hd : detectToolName (reg.map Prod.fst) input = "web_search" := by
      unfold detectToolName
      rw [hfind]
    exact Or.inr hd
  · have hd : detectToolName (reg.map Prod.fst) input = n := by
      unfold detectToolName
      rw [hfind]
    rw [hd]
    exact Or.inl (by simpa using List.find?_some hfind)

/-- C9 witness: on a reply naming no tool, detection over the `NewAgent`
registry falls back to a registered name. -/
theorem detectToolName_registered_witness :
    detectToolName newAgentToolNames "hello there" ∈ newAgentToolNames :=
  (detectToolName_registered
      (newAgentToolNames.map fun n => (n, fun _ => Except.ok ""))
      "hello there" (by decide)).2.1

/-- C10: with the API key present, the transmitted messages array excludes
every system-role message, and when the transcript has more than one system
message only the content of the last one survives as the system prompt —
earlier system contents appear nowhere in the request. -/
theorem query_system_message_handling (msgs : List Message)
    (_h : 1 < (msgs.filter fun m => m.role == "system").length) :
    apiMessagesOf msgs = apiMessagesOf (msgs.filter fun m => !(m.role == "system")) ∧
    systemPromptOf msgs =
      ((msgs.filter fun m => m.role == "system").map Message.content).getLastD "" :=
  ⟨apiMessagesOf_drop_system msgs, systemPromptOf_foldl msgs ""⟩

/-- C10 witness: with two system messages only the second content, "s2",
becomes the system prompt. -/
theorem query_system_message_handling_witness :
    systemPromptOf [⟨"system", "s1"⟩, ⟨"user", "u"⟩, ⟨"system", "s2"⟩] = "s2" :=
  (query_system_message_handling
      [⟨"system", "s1"⟩, ⟨"user", "u"⟩, ⟨"system", "s2"⟩] (by decide)).2

end AIAgent
